import Mathlib

/-!
Wavefront (anti-diagonal) sweep of a matrix: `slicer.c`.

Shallow embedding of `slicer.c` and proofs about the index computation of
`slicer`, `slice_whole_matrix` and `slice_superior_triangular_matrix`.

Modelling conventions.

* C `int` values are modelled by `Int`.  `slicer`, `slice_whole_matrix` and
  `slice_superior_triangular_matrix` are the functions on unbounded integers;
  they describe the program on every input on which no intermediate value
  leaves the range of `int`.
* Signed overflow is undefined in C.  `slicer_int`, `slice_whole_matrix_int` and
  `slice_superior_triangular_matrix_int` are the same functions on 32-bit `int`:
  they answer `none` when the sum `n + m` or a value computed from it is not an
  `int`, and the run on unbounded integers otherwise.  Nothing else the program
  computes can overflow (`loop_arithmetic_in_range`).
* `int** matrix` is modelled by a list of rows; an access `matrix[r][c]` is
  `Matrix.read`, which answers `none` outside the allocated rows and columns.
* What the program prints is modelled by structured data: one `SliceLine` per
  iteration of the outer loop (the line `Slice <slice>:  [count = <count>] v1 v2 ...`),
  one `Elem` per iteration of the inner loop (the value printed, together with
  the row and column index it was read from).
* A run ends in a `Status`: the function returned, the `assert` aborted the
  process, or a matrix access fell outside the matrix.
-/

namespace Slicer

/-! ## Data model -/

/-- A matrix as the program sees it: rows of `int`s. -/
abbrev Matrix := List (List Int)

/-- The access `matrix[r][c]`; `none` when the row or the column does not exist. -/
def Matrix.read (matrix : Matrix) (r c : Int) : Option Int :=
  if 0 ≤ r ∧ 0 ≤ c then
    match matrix.get? r.toNat with
    | some line => line.get? c.toNat
    | none => none
  else none

/-- The matrix owns at least `n` rows, each of them at least `m` columns wide
(what `main` allocates for `ROWS = n`, `COLUMNS = m`). -/
def Matrix.hasDims (matrix : Matrix) (n m : Int) : Prop :=
  n.toNat ≤ matrix.length ∧ ∀ line ∈ matrix, m.toNat ≤ line.length

instance (matrix : Matrix) (n m : Int) : Decidable (matrix.hasDims n m) := by
  unfold Matrix.hasDims; infer_instance

/-- One printed element: the indices used in `matrix[row][col]` and the value read. -/
structure Elem where
  row : Int
  col : Int
  value : Int
  deriving DecidableEq, Repr

/-- One printed line: the slice number, the printed `count`, the elements. -/
structure SliceLine where
  slice : Int
  count : Int
  elems : List Elem
  deriving DecidableEq, Repr

/-- How a call ends. -/
inductive Status where
  | completed
  | assertFailed
  | invalidRead
  deriving DecidableEq, Repr

/-- The observable result of a call: the lines printed and how the call ended. -/
structure Run where
  out : List SliceLine
  status : Status
  deriving DecidableEq, Repr

/-! ## The program -/

/-- C function `int max(int a, int b)`. -/
def max (a b : Int) : Int := if a > b then a else b

/-- C function `int min(int a, int b)`. -/
def min (a b : Int) : Int := if a < b then a else b

/-- Local `int start_column = max(0, m - 1 - slice);` of `slicer`. -/
def start_column (m slice : Int) : Int := max 0 (m - 1 - slice)

/-- Local `int start_row = max(0, slice - m + 1);` of `slicer`. -/
def start_row (m slice : Int) : Int := max 0 (slice - m + 1)

/-- Local `int count = min(min(slice, m - 1 - start_column), n - 1 - start_row) + 1;`
of `slicer`. -/
def count (n m slice : Int) : Int :=
  min (min slice (m - 1 - start_column m slice)) (n - 1 - start_row m slice) + 1

/-- The inner loop `for (int j = 0; j < count; j++) printf("%d ", matrix[..][..]);`
entered at `j`.  Answers the elements printed and whether the loop ran to its end
(`false`: an access left the matrix). -/
def elemLoop (matrix : Matrix) (m slice count : Int) (j : Int) : List Elem × Bool :=
  if j < count then
    let row := max j (slice - m + 1 + j)
    let col := max j (m - 1 - slice + j)
    match matrix.read row col with
    | some v =>
      let rest := elemLoop matrix m slice count (j + 1)
      (⟨row, col, v⟩ :: rest.1, rest.2)
    | none => ([], false)
  else ([], true)
termination_by (count - j).toNat
decreasing_by omega

/-- The outer loop `for (int slice = 0; slice < slice_limit; slice++) { ... }`
entered at `slice`. -/
def sliceLoop (matrix : Matrix) (n m slice_limit : Int) (slice : Int) : Run :=
  if slice < slice_limit then
    let count := count n m slice
    match elemLoop matrix m slice count 0 with
    | (elems, true) =>
      let rest := sliceLoop matrix n m slice_limit (slice + 1)
      ⟨⟨slice, count, elems⟩ :: rest.out, rest.status⟩
    | (elems, false) => ⟨[⟨slice, count, elems⟩], Status.invalidRead⟩
  else ⟨[], Status.completed⟩
termination_by (slice_limit - slice).toNat
decreasing_by omega

/-- C function `void slicer(int** matrix, int n, int m, int slice_limit)`: the
`assert`, then the outer loop from `slice = 0`.  The arithmetic is that of
unbounded integers, which is that of the source whenever `n + m` and `n + m - 1`
are `int`s; `slicer_int` adds the range of `int`. -/
def slicer (matrix : Matrix) (n m slice_limit : Int) : Run :=
  if slice_limit ≤ n + m - 1 ∧ slice_limit ≥ 0 then
    sliceLoop matrix n m slice_limit 0
  else ⟨[], Status.assertFailed⟩

/-- C function `void slice_whole_matrix(int** matrix, int n, int m)`, on unbounded
integers; `slice_whole_matrix_int` adds the range of `int`. -/
def slice_whole_matrix (matrix : Matrix) (n m : Int) : Run :=
  slicer matrix n m (n + m - 1)

/-- C function `void slice_superior_triangular_matrix(int** matrix, int n, int m,
bool exclude_primary_diagonal)`; `/` on `int` truncates towards zero.  The sum
`n + m` is that of unbounded integers, which is that of the source whenever it is
an `int`; `slice_superior_triangular_matrix_int` adds the range of `int`. -/
def slice_superior_triangular_matrix (matrix : Matrix) (n m : Int)
    (exclude_primary_diagonal : Bool) : Run :=
  if exclude_primary_diagonal then
    slicer matrix n m (Int.tdiv (n + m) 2 - 1)
  else
    slicer matrix n m (Int.tdiv (n + m) 2)

/-- The matrix `main` builds: `matrix[i][j] = i * COLUMNS + j`. -/
def mkMatrix (rows columns : Nat) : Matrix :=
  (List.range rows).map fun (i : Nat) =>
    (List.range columns).map fun (j : Nat) => (i : Int) * (columns : Int) + (j : Int)

/-- The index pair an element was read from. -/
def Elem.cell (e : Elem) : Int × Int := (e.row, e.col)

/-- The index pairs read for one line, in the order read. -/
def SliceLine.cells (l : SliceLine) : List (Int × Int) := l.elems.map Elem.cell

/-- The values printed on one line, in order. -/
def SliceLine.values (l : SliceLine) : List Int := l.elems.map Elem.value

/-- Every index pair read during the run, in the order read. -/
def Run.cells (r : Run) : List (Int × Int) := r.out.flatMap SliceLine.cells

/-- The slice numbers printed, in order. -/
def Run.slices (r : Run) : List Int := r.out.map SliceLine.slice

/-! ## Notions used in the statements -/

/-- The cells of the diagonal number `slice` from position `j` on, `k` of them. -/
def diagFrom (m slice j : Int) (k : Nat) : List (Int × Int) :=
  (List.range k).map fun (i : Nat) =>
    (start_row m slice + (j + (i : Int)), start_column m slice + (j + (i : Int)))

/-- The line the outer loop prints for `slice` (given that the reads succeed). -/
def lineOf (matrix : Matrix) (n m slice : Int) : SliceLine :=
  ⟨slice, count n m slice, (elemLoop matrix m slice (count n m slice) 0).1⟩

/-- Largest value of a 32-bit C `int`. -/
def INT_MAX : Int := 2147483647

/-- Smallest value of a 32-bit C `int`. -/
def INT_MIN : Int := -2147483648

/-- The value is representable as a C `int`. -/
def fits (x : Int) : Prop := INT_MIN ≤ x ∧ x ≤ INT_MAX

instance (x : Int) : Decidable (fits x) := by
  unfold fits; infer_instance

/-- C function `slicer` on 32-bit `int`.  The assertion evaluates `n + m - 1`, the
sum first; when `n + m` or `n + m - 1` is not an `int` the behaviour is undefined
(`none`).  Otherwise the call is the one on unbounded integers. -/
def slicer_int (matrix : Matrix) (n m slice_limit : Int) : Option Run :=
  if fits (n + m) ∧ fits (n + m - 1) then
    some (slicer matrix n m slice_limit)
  else none

/-- C function `slice_whole_matrix` on 32-bit `int`: the argument `n + m - 1` is
computed, then `slicer` is called. -/
def slice_whole_matrix_int (matrix : Matrix) (n m : Int) : Option Run :=
  if fits (n + m) ∧ fits (n + m - 1) then
    slicer_int matrix n m (n + m - 1)
  else none

/-- C function `slice_superior_triangular_matrix` on 32-bit `int`: the argument
`(n + m) / 2 - 1`, or `(n + m) / 2`, is computed, the sum first, then `slicer` is
called. -/
def slice_superior_triangular_matrix_int (matrix : Matrix) (n m : Int)
    (exclude_primary_diagonal : Bool) : Option Run :=
  if exclude_primary_diagonal then
    if fits (n + m) ∧ fits (Int.tdiv (n + m) 2) ∧ fits (Int.tdiv (n + m) 2 - 1) then
      slicer_int matrix n m (Int.tdiv (n + m) 2 - 1)
    else none
  else
    if fits (n + m) ∧ fits (Int.tdiv (n + m) 2) then
      slicer_int matrix n m (Int.tdiv (n + m) 2)
    else none

/-! ## Arithmetic of the index computation -/

theorem max_eq (a b : Int) : max a b = Max.max a b := by
  unfold max; rcases lt_or_le b a with h | h
  · rw [if_pos h, max_eq_left h.le]
  · rw [if_neg (not_lt.mpr h), max_eq_right h]

theorem min_eq (a b : Int) : min a b = Min.min a b := by
  unfold min; rcases lt_or_le a b with h | h
  · rw [if_pos h, min_eq_left h.le]
  · rw [if_neg (not_lt.mpr h), min_eq_right h]

theorem row_index_eq (m slice j : Int) :
    max j (slice - m + 1 + j) = start_row m slice + j := by
  simp only [start_row, max_eq]; omega

theorem col_index_eq (m slice j : Int) :
    max j (m - 1 - slice + j) = start_column m slice + j := by
  simp only [start_column, max_eq]; omega

theorem count_eq (n m slice : Int) :
    count n m slice = Min.min (Min.min slice (m - 1 - Max.max 0 (m - 1 - slice)))
      (n - 1 - Max.max 0 (slice - m + 1)) + 1 := by
  simp only [count, start_row, start_column, max_eq, min_eq]

/-! ## Adequacy of the unbounded integers -/

/-- For grid sizes `n, m ≥ 0` whose sum is an `int`, every value `slicer` computes
is an `int`: the bound of the assertion, and for every slice below an admitted
limit the start indices, the count, the next slice number, and for every `j` up
to the count the two index expressions and the next `j`.  On these inputs the
program has no signed overflow and `Int` models `int` exactly. -/
theorem int_arithmetic_in_range (n m slice_limit s j : Int)
    (hn : 0 ≤ n) (hm : 0 ≤ m) (hnm : n + m ≤ INT_MAX)
    (hl : slice_limit ≤ n + m - 1) (hs0 : 0 ≤ s) (hs : s < slice_limit)
    (hj0 : 0 ≤ j) (hj : j ≤ count n m s) :
    (fits (n + m) ∧ fits (n + m - 1)) ∧
    (fits (m - 1) ∧ fits (m - 1 - s) ∧ fits (start_column m s)) ∧
    (fits (s - m) ∧ fits (s - m + 1) ∧ fits (start_row m s)) ∧
    (fits (m - 1 - start_column m s) ∧ fits (n - 1) ∧ fits (n - 1 - start_row m s) ∧
      fits (count n m s - 1) ∧ fits (count n m s)) ∧
    (fits (s - m + 1 + j) ∧ fits (m - 1 - s + j) ∧ fits (j + 1) ∧ fits (s + 1)) := by
  rw [count_eq] at hj
  simp only [fits, INT_MAX, INT_MIN, count_eq, start_row, start_column, max_eq] at *
  refine ⟨⟨?_, ?_⟩, ⟨?_, ?_, ?_⟩, ⟨?_, ?_, ?_⟩, ⟨?_, ?_, ?_, ?_, ?_⟩, ⟨?_, ?_, ?_, ?_⟩⟩ <;> omega

/-- For `int` arguments `n`, `m` whose sum is an `int`, of any sign, every value
the loops of `slicer` compute is an `int`: once the bound `n + m - 1` of the
assertion is computed, no operation of a slice below an admitted limit can
overflow.  So the sum `n + m` and what the callers compute from it are the only
places where the program can leave the range of `int`. -/
theorem loop_arithmetic_in_range (n m slice_limit s j : Int)
    (hn : fits n) (hm : fits m) (hnm : fits (n + m))
    (hl : slice_limit ≤ n + m - 1) (hs0 : 0 ≤ s) (hs : s < slice_limit)
    (hj0 : 0 ≤ j) (hj : j ≤ count n m s) :
    fits (n + m - 1) ∧
    (fits (m - 1) ∧ fits (m - 1 - s) ∧ fits (start_column m s)) ∧
    (fits (s - m) ∧ fits (s - m + 1) ∧ fits (start_row m s)) ∧
    (fits (m - 1 - start_column m s) ∧ fits (n - 1) ∧ fits (n - 1 - start_row m s) ∧
      fits (count n m s - 1) ∧ fits (count n m s)) ∧
    (fits (s - m + 1 + j) ∧ fits (m - 1 - s + j) ∧ fits (j + 1) ∧ fits (s + 1)) := by
  rw [count_eq] at hj
  simp only [fits, INT_MAX, INT_MIN, count_eq, start_row, start_column, max_eq] at *
  refine ⟨?_, ⟨?_, ?_, ?_⟩, ⟨?_, ?_, ?_⟩, ⟨?_, ?_, ?_, ?_, ?_⟩, ⟨?_, ?_, ?_, ?_⟩⟩ <;> omega

/-! ## The loops in closed form -/

theorem read_of_hasDims {matrix : Matrix} {n m : Int} (hd : matrix.hasDims n m)
    {r c : Int} (hr0 : 0 ≤ r) (hr : r < n) (hc0 : 0 ≤ c) (hc : c < m) :
    ∃ v, matrix.read r c = some v := by
  obtain ⟨hlen, hrows⟩ := hd
  have hr2 : r.toNat < matrix.length := by omega
  have hget : matrix.get? r.toNat = some (matrix.get ⟨r.toNat, hr2⟩) := List.get?_eq_get hr2
  have hmem : matrix.get ⟨r.toNat, hr2⟩ ∈ matrix := List.get_mem _ _ _
  have hc2 : c.toNat < (matrix.get ⟨r.toNat, hr2⟩).length := by
    have := hrows _ hmem; omega
  refine ⟨(matrix.get ⟨r.toNat, hr2⟩).get ⟨c.toNat, hc2⟩, ?_⟩
  unfold Matrix.read
  rw [if_pos ⟨hr0, hc0⟩, hget]
  exact List.get?_eq_get hc2

theorem diagFrom_succ (m slice j : Int) (k : Nat) :
    diagFrom m slice j (k + 1)
      = (start_row m slice + j, start_column m slice + j) :: diagFrom m slice (j + 1) k := by
  unfold diagFrom
  rw [List.range_succ_eq_map, List.map_cons, List.map_map]
  congr 1
  · simp
  · apply List.map_congr_left
    intro i _
    simp only [Function.comp, Nat.succ_eq_add_one, Nat.cast_add, Nat.cast_one]
    congr 1 <;> omega

/-- When no element is left to print the inner loop stops at once. -/
theorem elemLoop_done (matrix : Matrix) (m slice cnt j : Int) (h : cnt ≤ j) :
    elemLoop matrix m slice cnt j = ([], true) := by
  rw [elemLoop, if_neg (by omega)]

/-- The inner loop on valid accesses: it runs to its end and reads the diagonal. -/
theorem elemLoop_ok (matrix : Matrix) (m slice cnt : Int) :
    ∀ (k : Nat) (j : Int), (cnt - j).toNat = k →
      (∀ i, j ≤ i → i < cnt →
        ∃ v, matrix.read (start_row m slice + i) (start_column m slice + i) = some v) →
      (elemLoop matrix m slice cnt j).2 = true ∧
      (elemLoop matrix m slice cnt j).1.map Elem.cell = diagFrom m slice j k ∧
      ∀ e ∈ (elemLoop matrix m slice cnt j).1, matrix.read e.row e.col = some e.value := by
  intro k
  induction k with
  | zero =>
    intro j hk _
    rw [elemLoop_done matrix m slice cnt j (by omega)]
    simp [diagFrom]
  | succ k ih =>
    intro j hk hread
    have hj : j < cnt := by omega
    obtain ⟨v, hv⟩ := hread j le_rfl hj
    obtain ⟨h1, h2, h3⟩ := ih (j + 1) (by omega) (fun i hi hi2 => hread i (by omega) hi2)
    rw [elemLoop, if_pos hj]
    simp only [row_index_eq, col_index_eq, hv]
    refine ⟨h1, ?_, ?_⟩
    · rw [List.map_cons, h2, diagFrom_succ]; rfl
    · intro e he
      rcases List.mem_cons.mp he with rfl | he
      · exact hv
      · exact h3 e he

/-- The outer loop when every inner loop runs to its end: one line per slice
number from `slice` to `slice_limit - 1`, and the call returns. -/
theorem sliceLoop_ok (matrix : Matrix) (n m slice_limit : Int) :
    ∀ (k : Nat) (slice : Int), (slice_limit - slice).toNat = k →
      (∀ s, slice ≤ s → s < slice_limit →
        (elemLoop matrix m s (count n m s) 0).2 = true) →
      sliceLoop matrix n m slice_limit slice
        = ⟨(List.range k).map (fun (i : Nat) => lineOf matrix n m (slice + (i : Int))), Status.completed⟩ := by
  intro k
  induction k with
  | zero =>
    intro slice hk _
    rw [sliceLoop, if_neg (by omega)]; rfl
  | succ k ih =>
    intro slice hk hin
    have hs : slice < slice_limit := by omega
    have h2 := hin slice le_rfl hs
    have hrest := ih (slice + 1) (by omega) (fun s hs1 hs2 => hin s (by omega) hs2)
    rw [sliceLoop, if_pos hs]
    have hsplit : elemLoop matrix m slice (count n m slice) 0
        = ((elemLoop matrix m slice (count n m slice) 0).1, true) := by
      rw [← h2]
    simp only []
    rw [hsplit, hrest]
    simp only [List.range_succ_eq_map, List.map_cons, List.map_map, lineOf]
    congr 2
    · simp
    · apply List.map_congr_left
      intro i _
      simp only [Function.comp, Nat.succ_eq_add_one, Nat.cast_add, Nat.cast_one]
      have : slice + 1 + (i : Int) = slice + ((i : Int) + 1) := by omega
      rw [this]

/-! ## The diagonals as sets of cells -/

/-- The inner loop of any slice stays inside an `n` by `m` matrix, so it runs to
its end: `count` never lets `j` reach past the last row or the last column. -/
theorem inner_ok (matrix : Matrix) (n m s : Int) (hd : matrix.hasDims n m) :
    (elemLoop matrix m s (count n m s) 0).2 = true ∧
    (lineOf matrix n m s).cells = diagFrom m s 0 (count n m s).toNat ∧
    ∀ e ∈ (lineOf matrix n m s).elems, matrix.read e.row e.col = some e.value := by
  have h := elemLoop_ok matrix m s (count n m s) (count n m s).toNat 0 (by omega) (by
    intro i hi0 hi
    rw [count_eq] at hi
    apply read_of_hasDims hd <;> simp only [start_row, start_column, max_eq] <;> omega)
  exact ⟨h.1, h.2.1, h.2.2⟩

/-- On a grid without rows or without columns the inner loop has nothing to do. -/
theorem inner_empty (matrix : Matrix) (n m s : Int) (hnm : n ≤ 0 ∨ m ≤ 0)
    (h0 : 0 ≤ s) (h1 : s ≤ n + m - 2) :
    count n m s ≤ 0 ∧ elemLoop matrix m s (count n m s) 0 = ([], true) := by
  have hc : count n m s ≤ 0 := by rw [count_eq]; omega
  exact ⟨hc, elemLoop_done matrix m s _ 0 hc⟩

/-- A call of `slicer` that passes the assertion and whose inner loops run to
their end prints one line per slice number below the limit and returns. -/
theorem slicer_eq_of_inner (matrix : Matrix) (n m slice_limit : Int)
    (h0 : 0 ≤ slice_limit) (h1 : slice_limit ≤ n + m - 1)
    (hin : ∀ s, 0 ≤ s → s < slice_limit → (elemLoop matrix m s (count n m s) 0).2 = true) :
    slicer matrix n m slice_limit
      = ⟨(List.range slice_limit.toNat).map (fun (i : Nat) => lineOf matrix n m (i : Int)),
          Status.completed⟩ := by
  unfold slicer
  rw [if_pos ⟨h1, h0⟩]
  rw [sliceLoop_ok matrix n m slice_limit slice_limit.toNat 0 (by omega) hin]
  simp

/-- A call of `slicer` on an `n` by `m` matrix that passes the assertion prints one
line per slice number below the limit and returns. -/
theorem slicer_eq (matrix : Matrix) (n m slice_limit : Int) (hd : matrix.hasDims n m)
    (h0 : 0 ≤ slice_limit) (h1 : slice_limit ≤ n + m - 1) :
    slicer matrix n m slice_limit
      = ⟨(List.range slice_limit.toNat).map (fun (i : Nat) => lineOf matrix n m (i : Int)),
          Status.completed⟩ :=
  slicer_eq_of_inner matrix n m slice_limit h0 h1 fun s _ _ => (inner_ok matrix n m s hd).1

theorem slicer_status (matrix : Matrix) (n m slice_limit : Int) (hd : matrix.hasDims n m)
    (h0 : 0 ≤ slice_limit) (h1 : slice_limit ≤ n + m - 1) :
    (slicer matrix n m slice_limit).status = Status.completed := by
  rw [slicer_eq matrix n m slice_limit hd h0 h1]

theorem slicer_slices (matrix : Matrix) (n m slice_limit : Int) (hd : matrix.hasDims n m)
    (h0 : 0 ≤ slice_limit) (h1 : slice_limit ≤ n + m - 1) :
    (slicer matrix n m slice_limit).slices
      = (List.range slice_limit.toNat).map (fun (i : Nat) => (i : Int)) := by
  rw [slicer_eq matrix n m slice_limit hd h0 h1]
  simp [Run.slices, lineOf, Function.comp_def]

theorem slicer_length (matrix : Matrix) (n m slice_limit : Int) (hd : matrix.hasDims n m)
    (h0 : 0 ≤ slice_limit) (h1 : slice_limit ≤ n + m - 1) :
    ((slicer matrix n m slice_limit).out.length : Int) = slice_limit := by
  rw [slicer_eq matrix n m slice_limit hd h0 h1]
  simp only [List.length_map, List.length_range]
  omega

/-! ## The full sweep -/

/-- C6: for `n, m ≥ 1` and every slice `s` (in particular `0 ≤ s ≤ n + m - 2`) the
count computed by `slicer` is `min(s + 1, min(n, m), n + m - 1 - s)`, that is
`s + 1` while `s + 1 ≤ min(n, m)`, then `min(n, m)` while `s + 1 ≤ max(n, m)`, then
`n + m - 1 - s`.  So the lengths of the diagonals of a full sweep start at `1`,
grow by one per slice while below `min(n, m)`, stay at `min(n, m)`, shrink by one
per slice from slice `max(n, m) - 1` on, end at `1`, and are symmetric:
`count(s) = count(n + m - 2 - s)`. -/
theorem C6_count_profile (n m s : Int) (hn : 1 ≤ n) (hm : 1 ≤ m) :
    count n m s = min (s + 1) (min (min n m) (n + m - 1 - s)) ∧
    count n m s = (if s + 1 ≤ min n m then s + 1
      else if s + 1 ≤ max n m then min n m else n + m - 1 - s) ∧
    count n m 0 = 1 ∧
    (s + 1 < min n m → count n m (s + 1) = count n m s + 1) ∧
    (min n m ≤ s + 1 → s + 1 ≤ max n m → count n m s = min n m) ∧
    (max n m ≤ s + 1 → count n m (s + 1) = count n m s - 1) ∧
    count n m (n + m - 2) = 1 ∧
    count n m s = count n m (n + m - 2 - s) := by
  simp only [count_eq, min_eq, max_eq]
  refine ⟨?_, ?_, ?_, ?_, ?_, ?_, ?_, ?_⟩
  · omega
  · split_ifs <;> omega
  all_goals omega

theorem C6_count_profile_witness :
    (1 : Int) ≤ 3 ∧ (1 : Int) ≤ 5 ∧
    (count 3 5 1 = min (1 + 1) (min (min 3 5) (3 + 5 - 1 - 1)) ∧
    count 3 5 1 = (if (1 : Int) + 1 ≤ min 3 5 then 1 + 1
      else if (1 : Int) + 1 ≤ max 3 5 then min 3 5 else 3 + 5 - 1 - 1) ∧
    count 3 5 0 = 1 ∧
    ((1 : Int) + 1 < min 3 5 → count 3 5 (1 + 1) = count 3 5 1 + 1) ∧
    (min 3 5 ≤ (1 : Int) + 1 → (1 : Int) + 1 ≤ max 3 5 → count 3 5 1 = min 3 5) ∧
    (max 3 5 ≤ (1 : Int) + 1 → count 3 5 (1 + 1) = count 3 5 1 - 1) ∧
    count 3 5 (3 + 5 - 2) = 1 ∧
    count 3 5 1 = count 3 5 (3 + 5 - 2 - 1)) :=
  ⟨by decide, by decide, C6_count_profile 3 5 1 (by decide) (by decide)⟩

/-! ## The sweep of the upper triangle -/

/-- The outer loop never ends in an assertion failure: the only `assert` of the
program stands before the loop. -/
theorem sliceLoop_status (matrix : Matrix) (n m slice_limit : Int) :
    ∀ (k : Nat) (slice : Int), (slice_limit - slice).toNat = k →
      (sliceLoop matrix n m slice_limit slice).status ≠ Status.assertFailed := by
  intro k
  induction k with
  | zero =>
    intro slice hk
    rw [sliceLoop, if_neg (by omega)]
    simp
  | succ k ih =>
    intro slice hk
    have hs : slice < slice_limit := by omega
    have hrest := ih (slice + 1) (by omega)
    rw [sliceLoop, if_pos hs]
    rcases h : elemLoop matrix m slice (count n m slice) 0 with ⟨elems, b⟩
    cases b
    · simp [h]
    · simpa [h] using hrest

/-- On unbounded integers `slicer` ends in an assertion failure if and only if
`slice_limit < 0` or `slice_limit > n + m - 1`; a call that fails so has printed
nothing, and a call on an `n` by `m` matrix that passes the assertion returns
after printing all `slice_limit` lines. -/
theorem slicer_assertion (matrix : Matrix) (n m slice_limit : Int) :
    ((slicer matrix n m slice_limit).status = Status.assertFailed ↔
      (slice_limit < 0 ∨ slice_limit > n + m - 1)) ∧
    ((slicer matrix n m slice_limit).status = Status.assertFailed →
      (slicer matrix n m slice_limit).out = []) ∧
    (matrix.hasDims n m → ¬ (slice_limit < 0 ∨ slice_limit > n + m - 1) →
      (slicer matrix n m slice_limit).status = Status.completed ∧
      ((slicer matrix n m slice_limit).out.length : Int) = slice_limit ∧
      (slicer matrix n m slice_limit).slices
        = (List.range slice_limit.toNat).map (fun (i : Nat) => (i : Int))) := by
  by_cases hc : slice_limit ≤ n + m - 1 ∧ slice_limit ≥ 0
  · have hloop := sliceLoop_status matrix n m slice_limit slice_limit.toNat 0 (by omega)
    have hrun : slicer matrix n m slice_limit = sliceLoop matrix n m slice_limit 0 := by
      rw [slicer, if_pos hc]
    refine ⟨⟨fun h => absurd (hrun ▸ h) hloop, fun h => by omega⟩,
      fun h => absurd (hrun ▸ h) hloop, fun hd _ => ?_⟩
    exact ⟨slicer_status matrix n m slice_limit hd hc.2 hc.1,
      slicer_length matrix n m slice_limit hd hc.2 hc.1,
      slicer_slices matrix n m slice_limit hd hc.2 hc.1⟩
  · have hrun : slicer matrix n m slice_limit = ⟨[], Status.assertFailed⟩ := by
      rw [slicer, if_neg hc]
    rw [hrun]
    refine ⟨⟨fun _ => by omega, fun _ => rfl⟩, fun _ => rfl, fun _ h => ?_⟩
    omega

/-- Where the sum and the bound of the assertion are `int`s the call on `int` is
the call on unbounded integers. -/
theorem slicer_int_eq (matrix : Matrix) (n m slice_limit : Int)
    (hsum : fits (n + m)) (hbound : fits (n + m - 1)) :
    slicer_int matrix n m slice_limit = some (slicer matrix n m slice_limit) := by
  rw [slicer_int, if_pos ⟨hsum, hbound⟩]

/-- Where the sum and the bound are `int`s the full sweep on `int` is the full
sweep on unbounded integers. -/
theorem slice_whole_matrix_int_eq (matrix : Matrix) (n m : Int)
    (hsum : fits (n + m)) (hbound : fits (n + m - 1)) :
    slice_whole_matrix_int matrix n m = some (slice_whole_matrix matrix n m) := by
  rw [slice_whole_matrix_int, if_pos ⟨hsum, hbound⟩, slicer_int_eq matrix n m _ hsum hbound]
  rfl

/-- C9, as stated, fails on `int`: `n = 2147483647`, `m = 1` and `slice_limit = 0`
are `int`s, the matrix has `n` rows of `m` columns, and neither `slice_limit < 0`
nor `slice_limit > n + m - 1` holds, so the claim promises a call that passes the
assertion and runs to its end.  But the assertion computes `n + m` first, which
is `2147483648` and not an `int`: the behaviour of the call is undefined. -/
theorem C9_overflow_in_assertion :
    (fits 2147483647 ∧ fits 1 ∧ fits 0) ∧
    Matrix.hasDims (List.replicate 2147483647 [0]) 2147483647 1 ∧
    ¬ ((0 : Int) < 0 ∨ (0 : Int) > 2147483647 + 1 - 1) ∧
    ¬ fits (2147483647 + 1) ∧
    slicer_int (List.replicate 2147483647 [0]) 2147483647 1 0 = none := by
  refine ⟨by decide, ?_, by decide, by decide, ?_⟩
  · refine ⟨?_, ?_⟩
    · rw [List.length_replicate]; decide
    · intro line hline
      rw [List.eq_of_mem_replicate hline]
      decide
  · rw [slicer_int, if_neg (by decide)]

/-- C9, amended: for all `int` values `n`, `m` and `slice_limit` for which `n + m`
and `n + m - 1` are `int`s, so that the assertion is evaluated without signed
overflow, the call of `slicer` is defined and ends in an assertion failure if and
only if `slice_limit < 0` or `slice_limit > n + m - 1`; a call that fails so has
printed nothing, and a call on an `n` by `m` matrix that passes the assertion
returns after printing all `slice_limit` lines. -/
theorem C9_assertion_in_range (matrix : Matrix) (n m slice_limit : Int)
    (hsum : fits (n + m)) (hbound : fits (n + m - 1)) :
    ∃ run : Run, slicer_int matrix n m slice_limit = some run ∧
      (run.status = Status.assertFailed ↔ (slice_limit < 0 ∨ slice_limit > n + m - 1)) ∧
      (run.status = Status.assertFailed → run.out = []) ∧
      (matrix.hasDims n m → ¬ (slice_limit < 0 ∨ slice_limit > n + m - 1) →
        run.status = Status.completed ∧
        (run.out.length : Int) = slice_limit ∧
        run.slices = (List.range slice_limit.toNat).map (fun (i : Nat) => (i : Int))) :=
  ⟨slicer matrix n m slice_limit, slicer_int_eq matrix n m slice_limit hsum hbound,
    slicer_assertion matrix n m slice_limit⟩

theorem C9_assertion_in_range_witness :
    fits ((2 : Int) + 1) ∧ fits ((2 : Int) + 1 - 1) ∧
    ∃ run : Run, slicer_int (mkMatrix 2 1) 2 1 2 = some run ∧
      (run.status = Status.assertFailed ↔ ((2 : Int) < 0 ∨ (2 : Int) > 2 + 1 - 1)) ∧
      (run.status = Status.assertFailed → run.out = []) ∧
      ((mkMatrix 2 1).hasDims 2 1 → ¬ ((2 : Int) < 0 ∨ (2 : Int) > 2 + 1 - 1) →
        run.status = Status.completed ∧
        (run.out.length : Int) = 2 ∧
        run.slices = (List.range (2 : Int).toNat).map (fun (i : Nat) => (i : Int))) :=
  ⟨by decide, by decide,
    C9_assertion_in_range (mkMatrix 2 1) 2 1 2 (by decide) (by decide)⟩

/-! ## Grids without rows or without columns -/

/-- C10, as stated, fails: for a grid with no row and three columns
`slice_whole_matrix` passes the assertion (`0 ≤ 2 ≤ 0 + 3 - 1`), prints the two
lines of slices `0` and `1`, each with count `0` and no element, and returns. -/
theorem C10_empty_grid_not_rejected :
    slice_whole_matrix [] 0 3
      = ⟨[⟨0, 0, []⟩, ⟨1, 0, []⟩], Status.completed⟩ := by
  simp [slice_whole_matrix, slicer, sliceLoop, elemLoop, count, start_row, start_column,
    max, min]

/-- C10, amended: `slicer` has no check for an empty grid.  For `n, m ≥ 0` with
`n = 0` or `m = 0` the call is rejected only by the assertion, that is exactly
when `slice_limit < 0` or `slice_limit > n + m - 1`; so `slice_whole_matrix` is
rejected, with nothing printed, exactly when `n = 0` and `m = 0`.  A call that
passes the assertion returns after printing one line per slice below the limit
(`n + m - 1` lines for `slice_whole_matrix`), each without any element. -/
theorem C10_empty_grid (matrix : Matrix) (n m slice_limit : Int)
    (hn : 0 ≤ n) (hm : 0 ≤ m) (hz : n = 0 ∨ m = 0) :
    ((slicer matrix n m slice_limit).status = Status.assertFailed ↔
      (slice_limit < 0 ∨ slice_limit > n + m - 1)) ∧
    (¬ (slice_limit < 0 ∨ slice_limit > n + m - 1) →
      (slicer matrix n m slice_limit).status = Status.completed ∧
      ((slicer matrix n m slice_limit).out.length : Int) = slice_limit ∧
      ∀ line ∈ (slicer matrix n m slice_limit).out, line.elems = []) ∧
    ((slice_whole_matrix matrix n m).status = Status.assertFailed ↔ (n = 0 ∧ m = 0)) ∧
    (n = 0 ∧ m = 0 → (slice_whole_matrix matrix n m).out = []) ∧
    (¬ (n = 0 ∧ m = 0) →
      (slice_whole_matrix matrix n m).status = Status.completed ∧
      ((slice_whole_matrix matrix n m).out.length : Int) = n + m - 1 ∧
      ∀ line ∈ (slice_whole_matrix matrix n m).out, line.elems = []) := by
  have key : ∀ k : Int, 0 ≤ k → k ≤ n + m - 1 →
      (slicer matrix n m k).status = Status.completed ∧
      ((slicer matrix n m k).out.length : Int) = k ∧
      ∀ line ∈ (slicer matrix n m k).out, line.elems = [] := by
    intro k hk0 hk
    have hin : ∀ s, 0 ≤ s → s < k → elemLoop matrix m s (count n m s) 0 = ([], true) :=
      fun s hs0 hs => (inner_empty matrix n m s (by omega) hs0 (by omega)).2
    rw [slicer_eq_of_inner matrix n m k hk0 hk (fun s hs0 hs => by rw [hin s hs0 hs])]
    refine ⟨rfl, ?_, ?_⟩
    · simp only [List.length_map, List.length_range]; omega
    · intro line hline
      obtain ⟨i, hi, rfl⟩ := List.mem_map.mp hline
      rw [List.mem_range] at hi
      show (elemLoop matrix m i (count n m i) 0).1 = []
      rw [hin i (by omega) (by omega)]
  have fail : ∀ k : Int, (k < 0 ∨ k > n + m - 1) →
      slicer matrix n m k = ⟨[], Status.assertFailed⟩ := by
    intro k hk
    rw [slicer, if_neg (by omega)]
  have iff : ∀ k : Int, (slicer matrix n m k).status = Status.assertFailed ↔
      (k < 0 ∨ k > n + m - 1) := by
    intro k
    constructor
    · intro h
      by_contra hk
      rw [(key k (by omega) (by omega)).1] at h
      cases h
    · intro hk
      rw [fail k hk]
  refine ⟨iff slice_limit, fun h => key slice_limit (by omega) (by omega), ?_, ?_, ?_⟩
  · unfold slice_whole_matrix
    rw [iff (n + m - 1)]
    omega
  · intro h
    unfold slice_whole_matrix
    rw [fail (n + m - 1) (by omega)]
  · intro h
    exact key (n + m - 1) (by omega) le_rfl

theorem C10_empty_grid_witness :
    (0 : Int) ≤ 0 ∧ (0 : Int) ≤ 3 ∧ ((0 : Int) = 0 ∨ (3 : Int) = 0) ∧
    (((slicer [] 0 3 1).status = Status.assertFailed ↔
      ((1 : Int) < 0 ∨ (1 : Int) > 0 + 3 - 1)) ∧
    (¬ ((1 : Int) < 0 ∨ (1 : Int) > 0 + 3 - 1) →
      (slicer [] 0 3 1).status = Status.completed ∧
      ((slicer [] 0 3 1).out.length : Int) = 1 ∧
      ∀ line ∈ (slicer [] 0 3 1).out, line.elems = []) ∧
    ((slice_whole_matrix [] 0 3).status = Status.assertFailed ↔ ((0 : Int) = 0 ∧ (3 : Int) = 0)) ∧
    ((0 : Int) = 0 ∧ (3 : Int) = 0 → (slice_whole_matrix [] 0 3).out = []) ∧
    (¬ ((0 : Int) = 0 ∧ (3 : Int) = 0) →
      (slice_whole_matrix [] 0 3).status = Status.completed ∧
      ((slice_whole_matrix [] 0 3).out.length : Int) = 0 + 3 - 1 ∧
      ∀ line ∈ (slice_whole_matrix [] 0 3).out, line.elems = [])) :=
  ⟨by decide, by decide, by decide, C10_empty_grid [] 0 3 1 (by decide) (by decide) (by decide)⟩

/-! ## The triangular sweep on grids that are not square -/

/-- The truncating division by two of a sum that is not negative, as a floor. -/
theorem tdiv_two (x : Int) (hx : 0 ≤ x) : Int.tdiv x 2 = x / 2 :=
  Int.tdiv_eq_ediv hx (by decide)

/-- C12: with `n = 0` and `m = 0` the assertion of `slicer` fails for every
`slice_limit`, with nothing printed; in particular `slice_whole_matrix` and
`slice_superior_triangular_matrix`, with either value of
`exclude_primary_diagonal`, fail. -/
theorem C12_no_rows_no_columns (matrix : Matrix) (slice_limit : Int)
    (exclude_primary_diagonal : Bool) :
    slicer matrix 0 0 slice_limit = ⟨[], Status.assertFailed⟩ ∧
    slice_whole_matrix matrix 0 0 = ⟨[], Status.assertFailed⟩ ∧
    slice_superior_triangular_matrix matrix 0 0 exclude_primary_diagonal
      = ⟨[], Status.assertFailed⟩ := by
  have fail : ∀ k : Int, slicer matrix 0 0 k = ⟨[], Status.assertFailed⟩ := by
    intro k
    rw [slicer, if_neg (by omega)]
  refine ⟨fail _, fail _, ?_⟩
  unfold slice_superior_triangular_matrix
  split <;> exact fail _

/-! ## The worked examples of the source -/

/-- C13: on the matrix `1 2 3 / 4 5 6 / 7 8 9` with `n = 3`, `m = 3`,
`slice_whole_matrix` returns after printing exactly five lines, numbered `0` to
`4`, whose values are `3`, then `2 6`, then `1 5 9`, then `4 8`, then `7`. -/
theorem C13_three_by_three :
    (slice_whole_matrix [[1, 2, 3], [4, 5, 6], [7, 8, 9]] 3 3).status = Status.completed ∧
    (slice_whole_matrix [[1, 2, 3], [4, 5, 6], [7, 8, 9]] 3 3).slices = [0, 1, 2, 3, 4] ∧
    (slice_whole_matrix [[1, 2, 3], [4, 5, 6], [7, 8, 9]] 3 3).out.map SliceLine.values
      = [[3], [2, 6], [1, 5, 9], [4, 8], [7]] := by
  have h : slice_whole_matrix [[1, 2, 3], [4, 5, 6], [7, 8, 9]] 3 3
      = ⟨[⟨0, 1, [⟨0, 2, 3⟩]⟩,
          ⟨1, 2, [⟨0, 1, 2⟩, ⟨1, 2, 6⟩]⟩,
          ⟨2, 3, [⟨0, 0, 1⟩, ⟨1, 1, 5⟩, ⟨2, 2, 9⟩]⟩,
          ⟨3, 2, [⟨1, 0, 4⟩, ⟨2, 1, 8⟩]⟩,
          ⟨4, 1, [⟨2, 0, 7⟩]⟩], Status.completed⟩ := by
    simp [slice_whole_matrix, slicer, sliceLoop, elemLoop, count, start_row, start_column,
      max, min, Matrix.read]
  rw [h]
  exact ⟨rfl, rfl, rfl⟩

/-- The cells read on each line of a call that passes the assertion. -/
theorem slicer_out_cells (matrix : Matrix) (n m slice_limit : Int) (hd : matrix.hasDims n m)
    (h0 : 0 ≤ slice_limit) (h1 : slice_limit ≤ n + m - 1) :
    (slicer matrix n m slice_limit).out.map SliceLine.cells
      = (List.range slice_limit.toNat).map
          (fun (i : Nat) => diagFrom m (i : Int) 0 (count n m (i : Int)).toNat) := by
  rw [slicer_eq matrix n m slice_limit hd h0 h1]
  simp only [List.map_map]
  apply List.map_congr_left
  intro i _
  exact (inner_ok matrix n m i hd).2.1

/-- The printed counts of a call that passes the assertion. -/
theorem slicer_out_counts (matrix : Matrix) (n m slice_limit : Int) (hd : matrix.hasDims n m)
    (h0 : 0 ≤ slice_limit) (h1 : slice_limit ≤ n + m - 1) :
    (slicer matrix n m slice_limit).out.map SliceLine.count
      = (List.range slice_limit.toNat).map (fun (i : Nat) => count n m (i : Int)) := by
  rw [slicer_eq matrix n m slice_limit hd h0 h1]
  simp only [List.map_map]
  apply List.map_congr_left
  intro i _
  rfl

/-- C14: on every 3 by 5 matrix (`n = 3`, `m = 5`) `slice_whole_matrix` returns
after printing exactly 7 lines, numbered `0` to `6`, with counts and lengths
`1, 2, 3, 3, 3, 2, 1`, reading the cells of the table in the source: `(0,4)`;
`(0,3), (1,4)`; `(0,2), (1,3), (2,4)`; `(0,1), (1,2), (2,3)`;
`(0,0), (1,1), (2,2)`; `(1,0), (2,1)`; `(2,0)`. -/
theorem C14_three_by_five (matrix : Matrix) (hd : matrix.hasDims 3 5) :
    (slice_whole_matrix matrix 3 5).status = Status.completed ∧
    (slice_whole_matrix matrix 3 5).slices = [0, 1, 2, 3, 4, 5, 6] ∧
    (slice_whole_matrix matrix 3 5).out.map SliceLine.count = [1, 2, 3, 3, 3, 2, 1] ∧
    (slice_whole_matrix matrix 3 5).out.map (fun l => l.elems.length)
      = [1, 2, 3, 3, 3, 2, 1] ∧
    (slice_whole_matrix matrix 3 5).out.map SliceLine.cells
      = [[(0, 4)],
         [(0, 3), (1, 4)],
         [(0, 2), (1, 3), (2, 4)],
         [(0, 1), (1, 2), (2, 3)],
         [(0, 0), (1, 1), (2, 2)],
         [(1, 0), (2, 1)],
         [(2, 0)]] := by
  have hlim : (3 : Int) + 5 - 1 = 7 := by decide
  have hcells := slicer_out_cells matrix 3 5 7 hd (by decide) (by decide)
  have hcells2 : (slicer matrix 3 5 7).out.map SliceLine.cells
      = [[(0, 4)], [(0, 3), (1, 4)], [(0, 2), (1, 3), (2, 4)], [(0, 1), (1, 2), (2, 3)],
         [(0, 0), (1, 1), (2, 2)], [(1, 0), (2, 1)], [(2, 0)]] := by
    rw [hcells]; decide
  have hlen : (slicer matrix 3 5 7).out.map (fun l => l.elems.length)
      = [1, 2, 3, 3, 3, 2, 1] := by
    have h := congrArg (List.map List.length) hcells2
    simpa [List.map_map, Function.comp_def, SliceLine.cells] using h
  unfold slice_whole_matrix
  rw [hlim]
  refine ⟨slicer_status matrix 3 5 7 hd (by decide) (by decide), ?_, ?_, hlen, hcells2⟩
  · rw [slicer_slices matrix 3 5 7 hd (by decide) (by decide)]; decide
  · rw [slicer_out_counts matrix 3 5 7 hd (by decide) (by decide)]; decide

theorem C14_three_by_five_witness :
    Matrix.hasDims [[1, 2, 3, 4, 5], [6, 7, 8, 9, 10], [11, 12, 13, 14, 15]] 3 5 ∧
    (slice_whole_matrix [[1, 2, 3, 4, 5], [6, 7, 8, 9, 10], [11, 12, 13, 14, 15]] 3 5).status
      = Status.completed ∧
    (slice_whole_matrix [[1, 2, 3, 4, 5], [6, 7, 8, 9, 10], [11, 12, 13, 14, 15]] 3 5).slices
      = [0, 1, 2, 3, 4, 5, 6] ∧
    (slice_whole_matrix [[1, 2, 3, 4, 5], [6, 7, 8, 9, 10], [11, 12, 13, 14, 15]] 3 5).out.map
      SliceLine.count = [1, 2, 3, 3, 3, 2, 1] ∧
    (slice_whole_matrix [[1, 2, 3, 4, 5], [6, 7, 8, 9, 10], [11, 12, 13, 14, 15]] 3 5).out.map
      (fun l => l.elems.length) = [1, 2, 3, 3, 3, 2, 1] ∧
    (slice_whole_matrix [[1, 2, 3, 4, 5], [6, 7, 8, 9, 10], [11, 12, 13, 14, 15]] 3 5).out.map
      SliceLine.cells
      = [[(0, 4)],
         [(0, 3), (1, 4)],
         [(0, 2), (1, 3), (2, 4)],
         [(0, 1), (1, 2), (2, 3)],
         [(0, 0), (1, 1), (2, 2)],
         [(1, 0), (2, 1)],
         [(2, 0)]] :=
  ⟨by decide,
    C14_three_by_five [[1, 2, 3, 4, 5], [6, 7, 8, 9, 10], [11, 12, 13, 14, 15]] (by decide)⟩

/-! ## The corners -/

/-- C17: for every column count `m` and slice `s` (in particular `m ≥ 1`,
`s ≥ 0`): if `s < m - 1` then `start_row = 0` and `start_column = m - 1 - s`, and
the start column of the next slice is smaller by exactly one; if `s ≥ m - 1`
then `start_column = 0` and `start_row = s - m + 1`, and the start row of the
next slice is larger by exactly one. -/
theorem C17_start_indices (m s : Int) :
    start_row m s = (if s < m - 1 then 0 else s - m + 1) ∧
    start_column m s = (if s < m - 1 then m - 1 - s else 0) ∧
    (s < m - 1 →
      start_row m s = 0 ∧ start_column m s = m - 1 - s ∧
      start_column m (s + 1) = start_column m s - 1) ∧
    (m - 1 ≤ s →
      start_column m s = 0 ∧ start_row m s = s - m + 1 ∧
      start_row m (s + 1) = start_row m s + 1) := by
  simp only [start_row, start_column, max_eq]
  refine ⟨?_, ?_, ?_, ?_⟩
  · split_ifs <;> omega
  · split_ifs <;> omega
  · intro h; omega
  · intro h; omega

theorem C17_start_indices_witness :
    (start_row 5 2 = 0 ∧ start_column 5 2 = 5 - 1 - 2 ∧
      start_column 5 (2 + 1) = start_column 5 2 - 1) ∧
    (start_column 5 6 = 0 ∧ start_row 5 6 = 6 - 5 + 1 ∧
      start_row 5 (6 + 1) = start_row 5 6 + 1) :=
  ⟨(C17_start_indices 5 2).2.2.1 (by decide), (C17_start_indices 5 6).2.2.2 (by decide)⟩

/-- On unbounded integers, for `n + m ≥ 2` both limits used by
`slice_superior_triangular_matrix`, `(n + m) / 2` and `(n + m) / 2 - 1`, lie in
`[0, n + m - 1]`, and the call does not end in an assertion failure. -/
theorem triangular_limits_admitted (matrix : Matrix) (n m : Int)
    (exclude_primary_diagonal : Bool) (hnm : 2 ≤ n + m) :
    (0 ≤ Int.tdiv (n + m) 2 ∧ Int.tdiv (n + m) 2 ≤ n + m - 1) ∧
    (0 ≤ Int.tdiv (n + m) 2 - 1 ∧ Int.tdiv (n + m) 2 - 1 ≤ n + m - 1) ∧
    (slice_superior_triangular_matrix matrix n m exclude_primary_diagonal).status
      ≠ Status.assertFailed := by
  have hdiv := tdiv_two (n + m) (by omega)
  have a : 0 ≤ Int.tdiv (n + m) 2 ∧ Int.tdiv (n + m) 2 ≤ n + m - 1 := by
    rw [hdiv]; omega
  have b : 0 ≤ Int.tdiv (n + m) 2 - 1 ∧ Int.tdiv (n + m) 2 - 1 ≤ n + m - 1 := by
    rw [hdiv]; omega
  have pass : ∀ k : Int, 0 ≤ k → k ≤ n + m - 1 →
      (slicer matrix n m k).status ≠ Status.assertFailed := by
    intro k hk0 hk
    rw [slicer, if_pos ⟨hk, hk0⟩]
    exact sliceLoop_status matrix n m k k.toNat 0 (by omega)
  refine ⟨a, b, ?_⟩
  unfold slice_superior_triangular_matrix
  split
  · exact pass _ b.1 b.2
  · exact pass _ a.1 a.2

/-- Where the sum `n + m ≥ 2` is an `int` the triangular call on `int` is the call
on unbounded integers. -/
theorem slice_superior_triangular_matrix_int_eq (matrix : Matrix) (n m : Int)
    (exclude_primary_diagonal : Bool) (hnm : 2 ≤ n + m) (hsum : fits (n + m)) :
    slice_superior_triangular_matrix_int matrix n m exclude_primary_diagonal
      = some (slice_superior_triangular_matrix matrix n m exclude_primary_diagonal) := by
  have hdiv := tdiv_two (n + m) (by omega)
  have hbound : fits (n + m - 1) := by
    simp only [fits, INT_MAX, INT_MIN] at *; omega
  have h1 : fits (Int.tdiv (n + m) 2) := by
    rw [hdiv]; simp only [fits, INT_MAX, INT_MIN] at *; omega
  have h2 : fits (Int.tdiv (n + m) 2 - 1) := by
    rw [hdiv]; simp only [fits, INT_MAX, INT_MIN] at *; omega
  unfold slice_superior_triangular_matrix_int slice_superior_triangular_matrix
  cases exclude_primary_diagonal
  · simp only [Bool.false_eq_true, if_false]
    rw [if_pos ⟨hsum, h1⟩, slicer_int_eq matrix n m _ hsum hbound]
  · simp only [if_true]
    rw [if_pos ⟨hsum, h1, h2⟩, slicer_int_eq matrix n m _ hsum hbound]

/-- C19, as stated, fails on `int`: `n = 2147483647` and `m = 1` are non-negative
`int`s with `n + m ≥ 2`, and the matrix has `n` rows of `m` columns, but the sum
`n + m` that both limits start from is `2147483648` and not an `int`.  With
either value of `exclude_primary_diagonal` the behaviour of the call is
undefined.  Where the sum wraps around modulo `2 ^ 32` it is `-2147483648`, the
limit `(n + m) / 2` is `-1073741824`, and `slicer` called with it ends in an
assertion failure. -/
theorem C19_overflow_in_limit :
    ((0 : Int) ≤ 2147483647 ∧ (0 : Int) ≤ 1 ∧ (2 : Int) ≤ 2147483647 + 1) ∧
    (fits 2147483647 ∧ fits 1) ∧
    Matrix.hasDims (List.replicate 2147483647 [0]) 2147483647 1 ∧
    ¬ fits (2147483647 + 1) ∧
    slice_superior_triangular_matrix_int (List.replicate 2147483647 [0]) 2147483647 1 false
      = none ∧
    slice_superior_triangular_matrix_int (List.replicate 2147483647 [0]) 2147483647 1 true
      = none ∧
    Int.tdiv ((2147483647 : Int) + 1 - 4294967296) 2 = -1073741824 ∧
    (slicer (List.replicate 2147483647 [0]) 2147483647 1 (-1073741824)).status
      = Status.assertFailed := by
  refine ⟨by decide, by decide, ?_, by decide, ?_, ?_, by decide, ?_⟩
  rotate_right
  · rw [slicer, if_neg (by decide)]
  · refine ⟨?_, ?_⟩
    · rw [List.length_replicate]; decide
    · intro line hline
      rw [List.eq_of_mem_replicate hline]
      decide
  · unfold slice_superior_triangular_matrix_int
    simp only [Bool.false_eq_true, if_false]
    rw [if_neg (by decide)]
  · unfold slice_superior_triangular_matrix_int
    simp only [if_true]
    rw [if_neg (by decide)]

/-- C19, amended: for all `int` values `n` and `m` with `n + m ≥ 2` whose sum
`n + m` is an `int` (in particular all non-negative `n`, `m` with
`2 ≤ n + m ≤ 2147483647`, square or not), both limits used by
`slice_superior_triangular_matrix`, `(n + m) / 2` and `(n + m) / 2 - 1`, lie in
`[0, n + m - 1]`, and the call is defined and does not end in an assertion
failure for either value of `exclude_primary_diagonal`. -/
theorem C19_triangular_limits_in_range (matrix : Matrix) (n m : Int)
    (exclude_primary_diagonal : Bool) (hnm : 2 ≤ n + m) (hsum : fits (n + m)) :
    (0 ≤ Int.tdiv (n + m) 2 ∧ Int.tdiv (n + m) 2 ≤ n + m - 1) ∧
    (0 ≤ Int.tdiv (n + m) 2 - 1 ∧ Int.tdiv (n + m) 2 - 1 ≤ n + m - 1) ∧
    ∃ run : Run,
      slice_superior_triangular_matrix_int matrix n m exclude_primary_diagonal = some run ∧
      run.status ≠ Status.assertFailed := by
  have h := triangular_limits_admitted matrix n m exclude_primary_diagonal hnm
  exact ⟨h.1, h.2.1, slice_superior_triangular_matrix matrix n m exclude_primary_diagonal,
    slice_superior_triangular_matrix_int_eq matrix n m exclude_primary_diagonal hnm hsum,
    h.2.2⟩

theorem C19_triangular_limits_in_range_witness :
    (2 : Int) ≤ 2 + 1 ∧ fits ((2 : Int) + 1) ∧
    ((0 ≤ Int.tdiv ((2 : Int) + 1) 2 ∧ Int.tdiv ((2 : Int) + 1) 2 ≤ 2 + 1 - 1) ∧
    (0 ≤ Int.tdiv ((2 : Int) + 1) 2 - 1 ∧ Int.tdiv ((2 : Int) + 1) 2 - 1 ≤ 2 + 1 - 1) ∧
    ∃ run : Run,
      slice_superior_triangular_matrix_int (mkMatrix 2 1) 2 1 true = some run ∧
      run.status ≠ Status.assertFailed) :=
  ⟨by decide, by decide,
    C19_triangular_limits_in_range (mkMatrix 2 1) 2 1 true (by decide) (by decide)⟩

/-! ## Grids without area read nothing -/

/-- C20: on a grid with `n, m ≥ 0` and `n = 0` or `m = 0`, with a limit that passes
the assertion, every slice `0 ≤ s < slice_limit` has a computed count that is
`0`, so at most `0`; the inner loop never runs; the call returns having read no
matrix element, every printed line being empty.  No matrix row or column needs
to exist. -/
theorem C20_empty_grid_reads_nothing (matrix : Matrix) (n m slice_limit : Int)
    (hn : 0 ≤ n) (hm : 0 ≤ m) (hz : n = 0 ∨ m = 0)
    (h0 : 0 ≤ slice_limit) (h1 : slice_limit ≤ n + m - 1) :
    (∀ s : Int, 0 ≤ s → s < slice_limit →
      count n m s ≤ 0 ∧ count n m s = 0 ∧
      elemLoop matrix m s (count n m s) 0 = ([], true)) ∧
    (slicer matrix n m slice_limit).status = Status.completed ∧
    ((slicer matrix n m slice_limit).out.length : Int) = slice_limit ∧
    (slicer matrix n m slice_limit).cells = [] ∧
    ∀ line ∈ (slicer matrix n m slice_limit).out, line.count ≤ 0 ∧ line.elems = [] := by
  have hin : ∀ s : Int, 0 ≤ s → s < slice_limit →
      count n m s ≤ 0 ∧ count n m s = 0 ∧
      elemLoop matrix m s (count n m s) 0 = ([], true) := by
    intro s hs0 hs
    have h := inner_empty matrix n m s (by omega) hs0 (by omega)
    refine ⟨h.1, ?_, h.2⟩
    rw [count_eq]; omega
  have hrun := slicer_eq_of_inner matrix n m slice_limit h0 h1
    (fun s hs0 hs => by rw [(hin s hs0 hs).2.2])
  have hlines : ∀ line ∈ (slicer matrix n m slice_limit).out,
      line.count ≤ 0 ∧ line.elems = [] := by
    intro line hline
    rw [hrun] at hline
    obtain ⟨i, hi, rfl⟩ := List.mem_map.mp hline
    rw [List.mem_range] at hi
    have h := hin i (by omega) (by omega)
    refine ⟨h.1, ?_⟩
    show (elemLoop matrix m i (count n m i) 0).1 = []
    rw [h.2.2]
  refine ⟨hin, by rw [hrun], ?_, ?_, hlines⟩
  · rw [hrun]
    simp only [List.length_map, List.length_range]
    omega
  · unfold Run.cells
    rw [List.flatMap_eq_nil_iff]
    intro line hline
    unfold SliceLine.cells
    rw [(hlines line hline).2]
    rfl

theorem C20_empty_grid_reads_nothing_witness :
    (0 : Int) ≤ 0 ∧ (0 : Int) ≤ 5 ∧ ((0 : Int) = 0 ∨ (5 : Int) = 0) ∧ (0 : Int) ≤ 4 ∧
    (4 : Int) ≤ 0 + 5 - 1 ∧
    ((∀ s : Int, 0 ≤ s → s < 4 →
      count 0 5 s ≤ 0 ∧ count 0 5 s = 0 ∧ elemLoop [] 5 s (count 0 5 s) 0 = ([], true)) ∧
    (slicer [] 0 5 4).status = Status.completed ∧
    ((slicer [] 0 5 4).out.length : Int) = 4 ∧
    (slicer [] 0 5 4).cells = [] ∧
    ∀ line ∈ (slicer [] 0 5 4).out, line.count ≤ 0 ∧ line.elems = []) :=
  ⟨by decide, by decide, by decide, by decide, by decide,
    C20_empty_grid_reads_nothing [] 0 5 4 (by decide) (by decide) (by decide) (by decide)
      (by decide)⟩

end Slicer
